import Mathlib

/-!
Shallow embedding of the testaroli override engine.

Sources embedded here:
* quota constants, `Override`, `numLeadingAlways`, `ExpectationsWereMet`,
  `Reset` — mock.go (src/unnamed/part_002, first document);
* `Expect`, `Expectation`, `overrideNextInChain` — expect.go (second document);
* the amd64 patch codec `override`/`reset` — src/unnamed/part_021 /
  override_amd64.go;
* `calcBoundaries` — mem_unix.go.

Machine addresses and bytes are `Nat`; Go `int` counter values are `Int`
(the sentinels `Unlimited`/`Always` are negative).  Process memory is a
function from address to byte.  Go panics in the embedded functions are
modelled as `Except` errors; in the source every such panic fires before
any global state is mutated, so an `.error` result corresponds to a run
that left the expectation chain and the patched code unchanged.
-/

namespace Testaroli

/-- Occurrence-count constants from mock.go. -/
def Once : Int := 1

/-- Sentinel count: override stays installed until reset. -/
def Unlimited : Int := -1

/-- Sentinel count: override lives outside the chain and is always effective. -/
def Always : Int := -2

/-- Smallest legal raw count value (mock.go: `minOccurenceCount = Always`). -/
def minOccurenceCount : Int := Always

/-- Byte-addressable process memory: address to byte value. -/
def Mem : Type := Nat → Nat

/-- Read `n` consecutive bytes starting at `addr`. -/
def readBytes (m : Mem) (addr n : Nat) : List Nat :=
  (List.range n).map fun i => m (addr + i)

/-- Write the byte list `bs` at `addr`, leaving all other addresses unchanged
(models `copy(unsafe.Slice(ptr, len(buf)), buf)`). -/
def writeBytes (m : Mem) (addr : Nat) (bs : List Nat) : Mem :=
  fun a => if addr ≤ a ∧ a < addr + bs.length then bs.getD (a - addr) 0 else m a

/-- Length of the x86-64 near `JMP rel32` instruction (override_amd64.go). -/
def jmpInstrLength : Nat := 5

/-- Opcode of the x86-64 near `JMP` instruction (override_amd64.go). -/
def jmpInstrCode : Nat := 0xE9

/-- Wrap-around of Go `uintptr` arithmetic (64-bit two's complement). -/
def wrap64 (x : Int) : Nat := (x % (2 : Int) ^ 64).toNat

/-- Little-endian encoding of `binary.NativeEndian.PutUint32` on amd64. -/
def putUint32 (x : Nat) : List Nat :=
  [x % 256, x / 256 % 256, x / 256 ^ 2 % 256, x / 256 ^ 3 % 256]

/-- The replacement prologue built by the amd64 `override`:
`JMP` opcode followed by `uint32(mockPointer - (orgPointer + jmpInstrLength))`.
The `uintptr` subtraction wraps modulo 2^64 and the `uint32` conversion then
truncates modulo 2^32; there is no range check in the source. -/
def newPrologue (orgPointer mockPointer : Nat) : List Nat :=
  jmpInstrCode ::
    putUint32 (wrap64 ((mockPointer : Int) - ((orgPointer : Int) + jmpInstrLength)) % 2 ^ 32)

/-- Arch-specific `override` (src/unnamed/part_021): copies the original
5-byte prologue aside, writes the `JMP rel32` stub over the function entry,
and returns the saved original prologue. -/
def override (m : Mem) (orgPointer mockPointer : Nat) : Mem × List Nat :=
  (writeBytes m orgPointer (newPrologue orgPointer mockPointer),
   readBytes m orgPointer jmpInstrLength)

/-- Arch-specific `reset` (src/unnamed/part_021): writes the saved prologue
back over the function entry. -/
def reset (m : Mem) (ptr : Nat) (buf : List Nat) : Mem :=
  writeBytes m ptr buf

/-- The `calcBoundaries` function of mem_unix.go.  On a 64-bit `uintptr`,
`ptr &^ (pageSize-1)` is AND with the 64-bit complement of `pageSize - 1`,
which equals `2^64 - pageSize`. -/
def calcBoundaries (ptr size pageSize : Nat) : Nat × Nat :=
  let areaStart := ptr &&& (2 ^ 64 - pageSize)
  (areaStart, ptr + size - areaStart)

/-- One entry of the global expectation chain (expect.go `Expect`, minus the
reflective argument machinery, which no claim concerns). -/
structure Expect where
  expCount : Int
  actCount : Nat := 0
  mockAddr : Nat
  orgAddr : Nat
  orgName : String
  orgPrologue : List Nat := []
deriving DecidableEq, Inhabited

/-- The global mutable state of the package: the `expectations` slice plus
the process code memory the patch codec mutates. -/
structure State where
  expectations : List Expect
  mem : Mem

/-- The `numLeadingAlways` helper of mock.go: index of the first entry whose
count is not `Always`, or the length of the list if all are. -/
def numLeadingAlways : List Expect → Nat
  | [] => 0
  | e :: rest => if e.expCount = Always then numLeadingAlways rest + 1 else 0

/-- Panics raised by `Override` before any state is mutated. -/
inductive OverrideError where
  | invalidCount
  | overriddenWithAlways
  | alwaysOnOverridden
deriving DecidableEq

/-- The conflict scan of `Override` (mock.go): the first entry for the same
original address decides; an existing `Always` entry forbids any further
override, and an `Always` request is forbidden once any entry exists. -/
def conflict : List Expect → Nat → Int → Option OverrideError
  | [], _, _ => none
  | e :: rest, org, count =>
    if e.orgAddr = org then
      if e.expCount = Always then some .overriddenWithAlways
      else if count = Always then some .alwaysOnOverridden
      else conflict rest org count
    else conflict rest org count

/-- The `Override` entry point of mock.go (the reflective callable checks and
the context check are outside the model).  Checks the count, scans for an
`Always` conflict, then either installs the redirect immediately — when the
request is `Always` or every existing entry is `Always` — or appends the
entry to the chain untouched.  Panics are modelled as errors; in the source
they fire before any mutation. -/
def Override (s : State) (org mock : Nat) (orgName : String) (count : Int) :
    Except OverrideError State :=
  if count < minOccurenceCount ∨ count = 0 then .error .invalidCount
  else
    match conflict s.expectations org count with
    | some err => .error err
    | none =>
      let expectedCall : Expect :=
        { expCount := count, mockAddr := mock, orgAddr := org, orgName := orgName }
      if count = Always ∨ s.expectations.length = numLeadingAlways s.expectations then
        let p := override s.mem org mock
        .ok ⟨s.expectations ++ [{ expectedCall with orgPrologue := p.2 }], p.1⟩
      else
        .ok ⟨s.expectations ++ [expectedCall], s.mem⟩

/-- Panics raised by `Expectation` when the call matches no eligible entry. -/
inductive ExpectationError where
  | unexpectedCall
  | notFromMock
deriving DecidableEq

/-- The matching scan of `Expectation` (expect.go): find the first entry whose
mock address equals the caller's entry point; it must be an `Always` entry or
sit at index `numLeadingAlways` (the installed chain head), otherwise the
call panics. -/
def findExpect (nla entry : Nat) : List Expect → Nat → Except ExpectationError Nat
  | [], _ => .error .notFromMock
  | e :: rest, i =>
    if e.mockAddr = entry then
      if e.expCount = Always ∨ nla = i then .ok i
      else .error .unexpectedCall
    else findExpect nla entry rest (i + 1)

/-- The `overrideNextInChain` helper of expect.go: if a non-`Always` entry
remains, install the redirect for the one at index `numLeadingAlways` and
record its saved prologue. -/
def overrideNextInChain (s : State) : State :=
  let next := numLeadingAlways s.expectations
  match s.expectations[next]? with
  | none => s
  | some e =>
    let p := override s.mem e.orgAddr e.mockAddr
    ⟨s.expectations.set next { e with orgPrologue := p.2 }, p.1⟩

/-- The `Expectation` entry point of expect.go, taking the caller's entry
address (obtained via `runtime.Caller` in the source).  Increments the
matched entry's call count; when that reaches a fixed quota the entry is
uninstalled (its saved prologue restored), removed from the chain, and the
next chain entry, if any, is installed — all before returning. -/
def Expectation (s : State) (entry : Nat) : Except ExpectationError (State × Expect) :=
  match findExpect (numLeadingAlways s.expectations) entry s.expectations 0 with
  | .error err => .error err
  | .ok order =>
    match s.expectations[order]? with
    | none => .error .notFromMock
    | some e =>
      let e' := { e with actCount := e.actCount + 1 }
      let es := s.expectations.set order e'
      if (e'.actCount : Int) = e'.expCount ∧ ¬(e'.expCount = Unlimited ∨ e'.expCount = Always) then
        .ok (overrideNextInChain ⟨es.eraseIdx order, reset s.mem e'.orgAddr e'.orgPrologue⟩, e')
      else
        .ok (⟨es, s.mem⟩, e')

/-- One deficiency record of `ExpectationsWereMet` (the two `fmt.Errorf`
shapes joined into the returned error). -/
inductive Deficiency where
  | notCalled (orgName : String)
  | calledTimes (orgName : String) (act : Nat) (exp : Int)
deriving DecidableEq

/-- The reporting loop of `ExpectationsWereMet` (mock.go): resets every entry
it visits, but `break`s — skipping all later entries — at an `Always` entry
or at a trailing `Unlimited` entry. -/
def wereMetLoop (m : Mem) : List Expect → Mem × List Deficiency
  | [] => (m, [])
  | e :: rest =>
    let m1 := reset m e.orgAddr e.orgPrologue
    if (e.expCount = Unlimited ∧ rest = []) ∨ e.expCount = Always then (m1, [])
    else
      let d := if e.actCount = 0 then Deficiency.notCalled e.orgName
               else Deficiency.calledTimes e.orgName e.actCount e.expCount
      let r := wereMetLoop m1 rest
      (r.1, d :: r.2)

/-- The `ExpectationsWereMet` entry point of mock.go.  Returns the final
state (the deferred `expectations = nil` always empties the list) and the
list of deficiencies; the Go function returns a nil error exactly when that
list is empty. -/
def ExpectationsWereMet (s : State) : State × List Deficiency :=
  let r := wereMetLoop s.mem s.expectations
  (⟨[], r.1⟩, r.2)

/-- The `Reset` entry point of mock.go: remove the first entry for the given
original address; if it was installed, restore its prologue and — unless it
was an `Always` entry — install the next chain entry. -/
def Reset (s : State) (org : Nat) : State :=
  match s.expectations.findIdx? (fun e => e.orgAddr == org) with
  | none => s
  | some i =>
    match s.expectations[i]? with
    | none => s
    | some e =>
      let es := s.expectations.eraseIdx i
      if 0 < e.orgPrologue.length then
        let m := reset s.mem e.orgAddr e.orgPrologue
        if e.expCount ≠ Always then overrideNextInChain ⟨es, m⟩ else ⟨es, m⟩
      else ⟨es, s.mem⟩

/-- Per-entry bound maintained by the chain: a pending fixed-quota override
has strictly fewer recorded calls than its quota. -/
def countInv (s : State) : Prop :=
  ∀ e ∈ s.expectations, 0 < e.expCount → (e.actCount : Int) < e.expCount

/-- All-zero code memory used by the concrete sessions below. -/
def mem0 : Mem := fun _ => 0

/-- State of a freshly started session over `mem0`. -/
def emptyState : State := ⟨[], mem0⟩

/-- Unwrap a successful `Override` result, with a fallback for the error case
(never taken in the concrete sessions below). -/
def getOk (d : State) : Except OverrideError State → State
  | .ok s => s
  | .error _ => d

/-- Whether an `Override` call succeeded (did not panic). -/
def isOk : Except OverrideError State → Bool
  | .ok _ => true
  | .error _ => false

/-- Unwrap the state of a successful `Expectation` result. -/
def getOkExp (d : State) : Except ExpectationError (State × Expect) → State
  | .ok p => p.1
  | .error _ => d

/-- Whether an `Expectation` call succeeded (did not panic). -/
def isOkExp : Except ExpectationError (State × Expect) → Bool
  | .ok _ => true
  | .error _ => false

/-- Concrete session, step 1: `Always` override of the function at 100 with
the mock at 300. -/
def alwaysThenOnce1 : State := getOk emptyState (Override emptyState 100 300 "f" Always)

/-- Concrete session, step 2: add a `Once` override of the function at 200
with the mock at 400 (installed immediately: the only existing entry is the
`Always` one). -/
def alwaysThenOnce2 : State := getOk emptyState (Override alwaysThenOnce1 200 400 "g" Once)

/-- Variant of the session: after the `Always` override of 100, a quota-3
override of the function at 200. -/
def alwaysThenThree : State := getOk emptyState (Override alwaysThenOnce1 200 400 "g" 3)

/-- The same session after one recorded invocation of the mock at 400. -/
def alwaysThenThreeCalled : State :=
  getOkExp alwaysThenThree (Expectation alwaysThenThree 400)

/-- Contrast session without any `Always` entry: a quota-3 override of the
function at 200. -/
def threeQuota : State := getOk emptyState (Override emptyState 200 400 "g" 3)

/-- The contrast session after one recorded invocation of the mock at 400. -/
def threeQuotaCalled : State := getOkExp threeQuota (Expectation threeQuota 400)

/-- Concrete session: `Once` override of the function at 100. -/
def onceG1 : State := getOk emptyState (Override emptyState 100 300 "f" Once)

/-- Concrete session: `Once` override of 100, then `Once` override of 200. -/
def onceG2 : State := getOk emptyState (Override onceG1 200 400 "g" Once)

/-- Concrete session: a single quota-2 override of the function at 100. -/
def twoQuota : State := getOk emptyState (Override emptyState 100 300 "f" 2)

/-- States reachable inside one session: the empty chain, then any sequence
of successful `Override`, `Expectation`, `Reset` and `ExpectationsWereMet`
operations. -/
inductive Reachable : State → Prop where
  | init (m : Mem) : Reachable ⟨[], m⟩
  | stepOverride {s s' : State} (org mock : Nat) (nm : String) (count : Int) :
      Reachable s → Override s org mock nm count = .ok s' → Reachable s'
  | stepExpectation {s s' : State} (entry : Nat) (e : Expect) :
      Reachable s → Expectation s entry = .ok (s', e) → Reachable s'
  | stepReset {s : State} (org : Nat) : Reachable s → Reachable (Reset s org)
  | stepWereMet {s : State} : Reachable s → Reachable (ExpectationsWereMet s).1

/-! Helper lemmas about the byte-level memory model. -/

/-- Reading inside a freshly written window returns the written byte. -/
theorem writeBytes_read (m : Mem) (addr : Nat) (bs : List Nat) (i : Nat) (h : i < bs.length) :
    writeBytes m addr bs (addr + i) = bs[i] := by
  unfold writeBytes
  rw [if_pos ⟨Nat.le_add_right _ _, by omega⟩, Nat.add_sub_cancel_left]
  exact List.getD_eq_getElem bs 0 h

/-- Reading back a whole written window returns exactly the written bytes. -/
theorem readBytes_writeBytes (m : Mem) (addr : Nat) (bs : List Nat) :
    readBytes (writeBytes m addr bs) addr bs.length = bs := by
  apply List.ext_getElem
  · simp [readBytes]
  · intro i h1 h2
    simp only [readBytes, List.getElem_map, List.getElem_range]
    exact writeBytes_read m addr bs i h2

/-- Claim C9: for every address and length, `calcBoundaries` returns a
page-aligned start address no greater than the given address, and a size such
that `[start, start+size)` covers all of `[address, address+length)` — the
permission change spans every page touched by the patch window.  The page
size is `2 ^ k`, as returned by `os.Getpagesize`. -/
theorem calcBoundaries_covers (ptr size k : Nat) :
    (calcBoundaries ptr size (2 ^ k)).1 % 2 ^ k = 0 ∧
    (calcBoundaries ptr size (2 ^ k)).1 ≤ ptr ∧
    (calcBoundaries ptr size (2 ^ k)).1 + (calcBoundaries ptr size (2 ^ k)).2 = ptr + size := by
  have hle : ptr &&& (2 ^ 64 - 2 ^ k) ≤ ptr := Nat.and_le_left
  have hM : (2 ^ 64 - 2 ^ k) % 2 ^ k = 0 := by
    rcases le_or_lt k 64 with hk | hk
    · exact Nat.mod_eq_zero_of_dvd (Nat.dvd_sub' (pow_dvd_pow 2 hk) dvd_rfl)
    · rw [Nat.sub_eq_zero_of_le (Nat.pow_le_pow_right (by norm_num) hk.le)]
      exact Nat.zero_mod _
  have hmod : (ptr &&& (2 ^ 64 - 2 ^ k)) % 2 ^ k = 0 := by
    rw [← Nat.and_pow_two_sub_one_eq_mod, Nat.and_assoc, Nat.and_pow_two_sub_one_eq_mod, hM,
      Nat.and_zero]
  exact ⟨hmod, hle, Nat.add_sub_cancel' (le_trans hle (Nat.le_add_right _ _))⟩

/-- Claim C10: `ExpectationsWereMet` always empties the global expectations
list before returning, on the success path and on the error path alike, so
after it returns no override entry remains registered (the deferred
`expectations = nil` of the source). -/
theorem expectationsWereMet_clears (s : State) :
    (ExpectationsWereMet s).1.expectations = [] := rfl

/-- Claim C8 (amended): the amd64 codec performs no displacement range check.
For every source and destination address it installs the 5-byte stub — the
`JMP` opcode followed by the 32-bit truncation of the wrapped difference
`mock - (org + 5)` — and returns the saved original bytes; there is no
failure path. -/
theorem override_never_checks_displacement (m : Mem) (org mock : Nat) :
    readBytes (override m org mock).1 org jmpInstrLength = newPrologue org mock ∧
    (override m org mock).2 = readBytes m org jmpInstrLength := by
  constructor
  · have h := readBytes_writeBytes m org (newPrologue org mock)
    have hlen : (newPrologue org mock).length = jmpInstrLength := rfl
    rw [hlen] at h
    exact h
  · rfl

/-- Claim C8 (counterexample): the claim says encoding the redirect stub
fails whenever the displacement does not fit a signed 32-bit field, and only
installs the stub when it fits.  At source 100 and destination 2^35 + 105 the
displacement is 2^35, far outside the 32-bit range, yet the codec silently
truncates it to 0 and installs the stub, and the full `Override` call
succeeds. -/
theorem override_out_of_range_installs :
    ((2 ^ 35 + 105 : Int) - (100 + 5) = 2 ^ 35 ∧ (2 ^ 31 : Int) < 2 ^ 35) ∧
    readBytes (override mem0 100 (2 ^ 35 + 105)).1 100 jmpInstrLength =
      [jmpInstrCode, 0, 0, 0, 0] ∧
    isOk (Override emptyState 100 (2 ^ 35 + 105) "f" Once) = true := by
  decide

/-- Claim C1 (code bug): in the session `Override(f@100, Always)` then
`Override(g@200, Once)` both overrides are installed, but after teardown the
bytes at g's entry still hold the `JMP` stub, not the captured original
bytes: the reporting loop of `ExpectationsWereMet` `break`s at the `Always`
entry and never resets g, contradicting the function's own documentation
that it restores the original state of overridden functions. -/
theorem wereMet_break_leaves_patch :
    (isOk (Override emptyState 100 300 "f" Always) &&
      isOk (Override alwaysThenOnce1 200 400 "g" Once)) = true ∧
    readBytes emptyState.mem 200 jmpInstrLength = [0, 0, 0, 0, 0] ∧
    readBytes alwaysThenOnce2.mem 200 jmpInstrLength = newPrologue 200 400 ∧
    readBytes (ExpectationsWereMet alwaysThenOnce2).1.mem 200 jmpInstrLength =
      newPrologue 200 400 ∧
    readBytes (ExpectationsWereMet alwaysThenOnce2).1.mem 100 jmpInstrLength =
      readBytes emptyState.mem 100 jmpInstrLength := by
  decide

/-- Claim C7 (code bug): after `Override(f@100, Always)` and
`Override(g@200, quota 3)` with exactly one recorded call to g's mock,
teardown reports no deficiency at all — the loop `break`s at the `Always`
entry before reaching g — although the claim (and §8 of the spec) requires
exactly one deficiency naming g with counts 1 of 3.  The contrast session
without the `Always` entry does report exactly that deficiency. -/
theorem wereMet_break_misses_deficiency :
    isOkExp (Expectation alwaysThenThree 400) = true ∧
    alwaysThenThreeCalled.expectations.map (fun e => (e.orgName, e.actCount, e.expCount)) =
      [("f", 0, Always), ("g", 1, 3)] ∧
    (ExpectationsWereMet alwaysThenThreeCalled).2 = [] ∧
    (ExpectationsWereMet threeQuotaCalled).2 = [Deficiency.calledTimes "g" 1 3] := by
  decide

/-- Claim C2 (counterexample): the claim's install condition is per-target —
"the target's chain of pending non-Always overrides is currently empty".
After a single `Once` override of the function at 100, the function at 200
has no pending override of any kind, yet requesting a `Once` override for it
installs nothing: no byte at 200 is written and no prologue is saved,
because the source's condition is global (`len(expectations) ==
numLeadingAlways()`), not per-target. -/
theorem override_install_not_per_target :
    isOk (Override onceG1 200 400 "g" Once) = true ∧
    onceG1.expectations.all (fun e => e.orgAddr != 200) = true ∧
    readBytes onceG2.mem 200 jmpInstrLength = readBytes onceG1.mem 200 jmpInstrLength ∧
    readBytes onceG2.mem 200 jmpInstrLength = [0, 0, 0, 0, 0] ∧
    onceG2.expectations.map (fun e => (e.orgName, e.orgPrologue)) =
      [("f", [0, 0, 0, 0, 0]), ("g", [])] := by
  decide

/-- Claim C2 (amended): for every override request with a legal count and no
`Always` conflict, if the requested count is `Always` or every pending
override (for any function) is an `Always` override — i.e. the global chain
of non-Always overrides is empty — the redirect is installed immediately and
the original prologue bytes are saved into the new entry; otherwise the
entry is appended to the chain in arrival (FIFO) order with no bytes written
and no prologue saved. -/
theorem override_install_iff_all_always (s : State) (org mock : Nat) (nm : String)
    (count : Int)
    (hcnt : ¬(count < minOccurenceCount ∨ count = 0))
    (hconf : conflict s.expectations org count = none) :
    ∃ e : Expect,
      Override s org mock nm count = .ok
        ⟨s.expectations ++ [e],
         if count = Always ∨ s.expectations.length = numLeadingAlways s.expectations
         then (override s.mem org mock).1 else s.mem⟩ ∧
      e.orgAddr = org ∧ e.mockAddr = mock ∧ e.expCount = count ∧ e.actCount = 0 ∧
      e.orgPrologue =
        (if count = Always ∨ s.expectations.length = numLeadingAlways s.expectations
         then readBytes s.mem org jmpInstrLength else []) := by
  by_cases hc : count = Always ∨ s.expectations.length = numLeadingAlways s.expectations
  · refine ⟨⟨count, 0, mock, org, nm, readBytes s.mem org jmpInstrLength⟩, ?_, rfl, rfl, rfl,
      rfl, by rw [if_pos hc]⟩
    unfold Override
    rw [if_neg hcnt, hconf, if_pos hc, if_pos hc]
    rfl
  · refine ⟨⟨count, 0, mock, org, nm, []⟩, ?_, rfl, rfl, rfl, rfl, by rw [if_neg hc]⟩
    unfold Override
    rw [if_neg hcnt, hconf, if_neg hc, if_neg hc]

/-- Witness for claim C2's amended theorem at the concrete session `onceG1`:
a non-empty chain whose head is not `Always`, so the new entry for the
untouched function at 200 is appended uninstalled. -/
theorem override_install_iff_all_always_witness :
    (¬((1 : Int) < minOccurenceCount ∨ (1 : Int) = 0)) ∧
    conflict onceG1.expectations 200 1 = none ∧
    ∃ e : Expect,
      Override onceG1 200 400 "g" 1 = .ok
        ⟨onceG1.expectations ++ [e],
         if (1 : Int) = Always ∨ onceG1.expectations.length = numLeadingAlways onceG1.expectations
         then (override onceG1.mem 200 400).1 else onceG1.mem⟩ ∧
      e.orgAddr = 200 ∧ e.mockAddr = 400 ∧ e.expCount = 1 ∧ e.actCount = 0 ∧
      e.orgPrologue =
        (if (1 : Int) = Always ∨ onceG1.expectations.length = numLeadingAlways onceG1.expectations
         then readBytes onceG1.mem 200 jmpInstrLength else []) :=
  ⟨by decide, by decide,
   override_install_iff_all_always onceG1 200 400 "g" 1 (by decide) (by decide)⟩

/-- The conflict scan reports an error whenever the request is `Always` and
any entry for the same original address exists. -/
theorem conflict_of_always_req (es : List Expect) (org : Nat)
    (h : ∃ e ∈ es, e.orgAddr = org) :
    ∃ err, conflict es org Always = some err ∧
      (err = OverrideError.overriddenWithAlways ∨ err = OverrideError.alwaysOnOverridden) := by
  induction es with
  | nil => rcases h with ⟨e, he, _⟩; cases he
  | cons a rest ih =>
    by_cases ha : a.orgAddr = org
    · by_cases haa : a.expCount = Always
      · exact ⟨OverrideError.overriddenWithAlways, by simp [conflict, ha, haa], Or.inl rfl⟩
      · exact ⟨OverrideError.alwaysOnOverridden, by simp [conflict, ha, haa], Or.inr rfl⟩
    · have h' : ∃ e ∈ rest, e.orgAddr = org := by
        rcases h with ⟨e, he, heq⟩
        cases List.mem_cons.mp he with
        | inl h1 => exact absurd (h1 ▸ heq) ha
        | inr h1 => exact ⟨e, h1, heq⟩
      rcases ih h' with ⟨err, hsome, hor⟩
      exact ⟨err, by simp [conflict, ha, hsome], hor⟩

/-- The conflict scan reports an error whenever an `Always` entry for the
same original address already exists, whatever the requested count. -/
theorem conflict_of_existing_always (es : List Expect) (org : Nat) (count : Int)
    (h : ∃ e ∈ es, e.orgAddr = org ∧ e.expCount = Always) :
    ∃ err, conflict es org count = some err ∧
      (err = OverrideError.overriddenWithAlways ∨ err = OverrideError.alwaysOnOverridden) := by
  induction es with
  | nil => rcases h with ⟨e, he, _⟩; cases he
  | cons a rest ih =>
    by_cases ha : a.orgAddr = org
    · by_cases haa : a.expCount = Always
      · exact ⟨OverrideError.overriddenWithAlways, by simp [conflict, ha, haa], Or.inl rfl⟩
      · by_cases hcA : count = Always
        · exact ⟨OverrideError.alwaysOnOverridden, by simp [conflict, ha, haa, hcA], Or.inr rfl⟩
        · have h' : ∃ e ∈ rest, e.orgAddr = org ∧ e.expCount = Always := by
            rcases h with ⟨e, he, h1, h2⟩
            cases List.mem_cons.mp he with
            | inl hh => exact absurd (hh ▸ h2) haa
            | inr hh => exact ⟨e, hh, h1, h2⟩
          rcases ih h' with ⟨err, hsome, hor⟩
          exact ⟨err, by simp [conflict, ha, haa, hcA, hsome], hor⟩
    · have h' : ∃ e ∈ rest, e.orgAddr = org ∧ e.expCount = Always := by
        rcases h with ⟨e, he, h1, h2⟩
        cases List.mem_cons.mp he with
        | inl hh => exact absurd (hh ▸ h1) ha
        | inr hh => exact ⟨e, hh, h1, h2⟩
      rcases ih h' with ⟨err, hsome, hor⟩
      exact ⟨err, by simp [conflict, ha, hsome], hor⟩

/-- Claim C5: requesting an `Always` override for a function that already
has any pending or installed override fails with one of the two
quota-conflict panics, and requesting a non-`Always` override for a function
that already has an `Always` override also fails with a quota-conflict
panic.  In the source both panics fire before any state is mutated, so an
error result leaves the chain and the patched code unchanged. -/
theorem override_always_conflict (s : State) (org mock : Nat) (nm : String) (count : Int)
    (hcnt : ¬(count < minOccurenceCount ∨ count = 0))
    (h : (count = Always ∧ ∃ e ∈ s.expectations, e.orgAddr = org) ∨
         (∃ e ∈ s.expectations, e.orgAddr = org ∧ e.expCount = Always)) :
    ∃ err, Override s org mock nm count = .error err ∧
      (err = OverrideError.overriddenWithAlways ∨ err = OverrideError.alwaysOnOverridden) := by
  have hc : ∃ err, conflict s.expectations org count = some err ∧
      (err = OverrideError.overriddenWithAlways ∨ err = OverrideError.alwaysOnOverridden) := by
    rcases h with ⟨hA, hex⟩ | hex
    · subst hA; exact conflict_of_always_req _ _ hex
    · exact conflict_of_existing_always _ _ _ hex
  rcases hc with ⟨err, hsome, hor⟩
  refine ⟨err, ?_, hor⟩
  unfold Override
  rw [if_neg hcnt, hsome]

/-- Witness for claim C5 at the concrete session `alwaysThenOnce1`: a later
`Once` request for the function at 100, which already has an `Always`
override, is rejected with a quota-conflict error. -/
theorem override_always_conflict_witness :
    (∃ e ∈ alwaysThenOnce1.expectations, e.orgAddr = 100 ∧ e.expCount = Always) ∧
    ∃ err, Override alwaysThenOnce1 100 500 "f" Once = .error err ∧
      (err = OverrideError.overriddenWithAlways ∨ err = OverrideError.alwaysOnOverridden) :=
  ⟨by decide,
   override_always_conflict alwaysThenOnce1 100 500 "f" Once (by decide) (Or.inr (by decide))⟩

/-- The matching scan fails with the orphan panic when no entry has the
caller's replacement address. -/
theorem findExpect_none (nla entry : Nat) :
    ∀ (es : List Expect) (j : Nat), (∀ e ∈ es, e.mockAddr ≠ entry) →
      findExpect nla entry es j = .error .notFromMock := by
  intro es
  induction es with
  | nil => intro j _; rfl
  | cons a rest ih =>
    intro j h
    simp only [findExpect]
    rw [if_neg (h a (List.mem_cons_self a rest))]
    exact ih (j + 1) fun e he => h e (List.mem_cons_of_mem a he)

/-- The matching scan skips a leading block of entries whose replacement
addresses all differ from the caller's. -/
theorem findExpect_append (nla entry : Nat) :
    ∀ (es₁ rest : List Expect) (j : Nat), (∀ e ∈ es₁, e.mockAddr ≠ entry) →
      findExpect nla entry (es₁ ++ rest) j = findExpect nla entry rest (j + es₁.length) := by
  intro es₁
  induction es₁ with
  | nil => intro rest j _; simp
  | cons a t ih =>
    intro rest j h
    simp only [List.cons_append, findExpect]
    rw [if_neg (h a (List.mem_cons_self a t))]
    simp only [List.append_eq]
    rw [ih rest (j + 1) (fun e he => h e (List.mem_cons_of_mem a he))]
    congr 1
    simp only [List.length_cons]
    omega

/-- Claim C6 (amended): a recorded invocation that matches no
currently-installed override panics at once — modelled as the error result —
instead of being accumulated for teardown.  Part one: no entry carries the
caller's replacement address (the override was already retired), so the
call fails with the orphan panic.  Part two: the first entry carrying the
address is neither an `Always` entry nor the installed chain head, so the
call fails with the ordering panic. -/
theorem expectation_unmatched_errors (s : State) (entry : Nat) :
    ((∀ e ∈ s.expectations, e.mockAddr ≠ entry) →
      Expectation s entry = .error .notFromMock) ∧
    (∀ (es₁ : List Expect) (e : Expect) (es₂ : List Expect),
      s.expectations = es₁ ++ e :: es₂ →
      (∀ e' ∈ es₁, e'.mockAddr ≠ entry) → e.mockAddr = entry →
      ¬(e.expCount = Always ∨ numLeadingAlways s.expectations = es₁.length) →
      Expectation s entry = .error .unexpectedCall) := by
  constructor
  · intro h
    unfold Expectation
    rw [findExpect_none _ _ _ 0 h]
  · intro es₁ e es₂ hsplit h1 h2 h3
    have hfe : findExpect (numLeadingAlways s.expectations) entry s.expectations 0 =
        .error .unexpectedCall := by
      generalize numLeadingAlways s.expectations = nla at h3 ⊢
      rw [hsplit, findExpect_append nla entry es₁ (e :: es₂) 0 h1]
      simp only [findExpect, Nat.zero_add]
      rw [if_pos h2, if_neg h3]
    unfold Expectation
    rw [hfe]

/-- Witness for claim C6's amended theorem: in the session `alwaysThenOnce1`
no entry has replacement address 555, and the invocation panics at once. -/
theorem expectation_unmatched_errors_witness :
    (∀ e ∈ alwaysThenOnce1.expectations, e.mockAddr ≠ 555) ∧
    Expectation alwaysThenOnce1 555 = .error .notFromMock :=
  ⟨by decide, (expectation_unmatched_errors alwaysThenOnce1 555).1 (by decide)⟩

/-- Claim C6 (counterexample): the claim says an unmatched recorded
invocation is non-fatal and is surfaced only in teardown's aggregated
result.  In the session `onceG1` an invocation from address 999 matches no
override; the source panics immediately (`.error` here), and the teardown
result contains only the ordinary not-called deficiency for f — no record of
the unmatched invocation is accumulated anywhere. -/
theorem expectation_orphan_immediate :
    Expectation onceG1 999 = .error .notFromMock ∧
    (ExpectationsWereMet onceG1).2 = [Deficiency.notCalled "f"] :=
  ⟨rfl, by decide⟩

/-- Claim C3: when a recorded invocation makes a fixed-count override's call
count equal its count, then before `Expectation` returns, that override is
uninstalled (its saved prologue restored by `reset`), removed from the
chain, and the next non-`Always` chain entry, if one remains, is installed
(`overrideNextInChain`).  Overrides with count `Unlimited` or `Always` are
never uninstalled by an invocation: the state keeps its memory and its chain
length, only the matched entry's call count changes.  A fixed-count premise
is implied by the equality hypothesis, since a call count is positive. -/
theorem expectation_exhaustion_advances (s : State) (entry order : Nat) (e : Expect)
    (hfind : findExpect (numLeadingAlways s.expectations) entry s.expectations 0 = .ok order)
    (hget : s.expectations[order]? = some e) :
    ((((e.actCount + 1 : Nat) : Int) = e.expCount) →
      Expectation s entry = .ok
        (overrideNextInChain
          ⟨(s.expectations.set order { e with actCount := e.actCount + 1 }).eraseIdx order,
           reset s.mem e.orgAddr e.orgPrologue⟩,
         { e with actCount := e.actCount + 1 })) ∧
    ((e.expCount = Unlimited ∨ e.expCount = Always) →
      ∃ s', Expectation s entry = .ok (s', { e with actCount := e.actCount + 1 }) ∧
        s'.mem = s.mem ∧ s'.expectations.length = s.expectations.length) := by
  simp only [Expectation, hfind, hget]
  constructor
  · intro h1
    have hnot : ¬(e.expCount = Unlimited ∨ e.expCount = Always) := by
      simp only [Unlimited, Always]
      omega
    rw [if_pos ⟨h1, hnot⟩]
  · intro h2
    have hcond : ¬(((e.actCount + 1 : Nat) : Int) = e.expCount ∧
        ¬(e.expCount = Unlimited ∨ e.expCount = Always)) := by
      intro hx
      exact hx.2 h2
    rw [if_neg hcond]
    exact ⟨⟨s.expectations.set order { e with actCount := e.actCount + 1 }, s.mem⟩, rfl, rfl,
      by simp⟩

/-- Witness for claim C3 at the concrete session `onceG2`: the single
recorded invocation exhausts the quota-1 override of the function at 100,
which is restored, removed, and replaced by the next chain entry. -/
theorem expectation_exhaustion_advances_witness :
    findExpect (numLeadingAlways onceG2.expectations) 300 onceG2.expectations 0 = .ok 0 ∧
    onceG2.expectations[0]? = some ⟨1, 0, 300, 100, "f", [0, 0, 0, 0, 0]⟩ ∧
    Expectation onceG2 300 = .ok
      (overrideNextInChain
        ⟨(onceG2.expectations.set 0 ⟨1, 1, 300, 100, "f", [0, 0, 0, 0, 0]⟩).eraseIdx 0,
         reset onceG2.mem 100 [0, 0, 0, 0, 0]⟩,
       ⟨1, 1, 300, 100, "f", [0, 0, 0, 0, 0]⟩) :=
  ⟨rfl, rfl,
   (expectation_exhaustion_advances onceG2 300 0 ⟨1, 0, 300, 100, "f", [0, 0, 0, 0, 0]⟩
     rfl rfl).1 (by decide)⟩

/-- Erasing the index that was just overwritten gives the same list as
erasing it directly. -/
theorem eraseIdx_set {α : Type} (l : List α) (i : Nat) (a : α) :
    (l.set i a).eraseIdx i = l.eraseIdx i := by
  induction l generalizing i with
  | nil => rfl
  | cons x xs ih =>
    cases i with
    | zero => rfl
    | succ n =>
      simp only [List.set, List.eraseIdx]
      rw [ih n]

/-- Installing the next chain entry only rewrites a saved prologue; it keeps
every entry's quota and call count, so it preserves the count invariant. -/
theorem countInv_overrideNext {t : State} (h : countInv t) :
    countInv (overrideNextInChain t) := by
  simp only [overrideNextInChain]
  split
  · exact h
  · rename_i e0 heq
    intro e he
    rcases List.mem_or_eq_of_mem_set he with h1 | rfl
    · exact h e h1
    · exact h e0 (List.getElem?_mem heq)

/-- A successful `Override` only appends one fresh entry, whose call count
is zero. -/
theorem override_ok_append {s s' : State} {org mock : Nat} {nm : String} {count : Int}
    (h : Override s org mock nm count = .ok s') :
    ∃ e : Expect, s'.expectations = s.expectations ++ [e] ∧ e.actCount = 0 := by
  simp only [Override] at h
  split at h
  · simp at h
  · split at h
    · simp at h
    · split at h
      · rw [Except.ok.injEq] at h
        subst h
        exact ⟨_, rfl, rfl⟩
      · rw [Except.ok.injEq] at h
        subst h
        exact ⟨_, rfl, rfl⟩

/-- A successful `Expectation` preserves the count invariant, and the
override it matches ends with a call count no greater than its quota when
the quota is a fixed positive count. -/
theorem countInv_expectation {s s' : State} {entry : Nat} {e' : Expect}
    (hinv : countInv s) (h : Expectation s entry = .ok (s', e')) :
    countInv s' ∧ (0 < e'.expCount → (e'.actCount : Int) ≤ e'.expCount) := by
  unfold Expectation at h
  cases hfe : findExpect (numLeadingAlways s.expectations) entry s.expectations 0 with
  | error err =>
    simp only [hfe] at h
    exact Except.noConfusion h
  | ok order =>
    simp only [hfe] at h
    cases hg : s.expectations[order]? with
    | none =>
      simp only [hg] at h
      exact Except.noConfusion h
    | some e =>
      simp only [hg] at h
      have hmem : e ∈ s.expectations := List.getElem?_mem hg
      have hlt : 0 < e.expCount → (e.actCount : Int) < e.expCount := hinv e hmem
      by_cases hcond : ((e.actCount + 1 : Nat) : Int) = e.expCount ∧
          ¬(e.expCount = Unlimited ∨ e.expCount = Always)
      · rw [if_pos hcond] at h
        rw [Except.ok.injEq, Prod.mk.injEq] at h
        obtain ⟨h1, h2⟩ := h
        subst h1
        subst h2
        constructor
        · apply countInv_overrideNext
          intro f hf
          rw [eraseIdx_set] at hf
          exact hinv f (List.mem_of_mem_eraseIdx hf)
        · intro _
          exact le_of_eq hcond.1
      · rw [if_neg hcond] at h
        rw [Except.ok.injEq, Prod.mk.injEq] at h
        obtain ⟨h1, h2⟩ := h
        subst h1
        subst h2
        simp only [Unlimited, Always] at hcond
        constructor
        · intro f hf
          rcases List.mem_or_eq_of_mem_set hf with h1 | rfl
          · exact hinv f h1
          · intro hpos
            have := hlt hpos
            simp only at hpos ⊢
            omega
        · intro hpos
          have := hlt hpos
          simp only at hpos ⊢
          omega

/-- `Reset` only removes an entry and possibly installs the next one, so it
preserves the count invariant. -/
theorem countInv_Reset {s : State} (org : Nat) (hinv : countInv s) :
    countInv (Reset s org) := by
  simp only [Reset]
  split
  · exact hinv
  · split
    · exact hinv
    · rename_i i hfi e hg
      split
      · split
        · apply countInv_overrideNext
          intro f hf
          exact hinv f (List.mem_of_mem_eraseIdx hf)
        · intro f hf
          exact hinv f (List.mem_of_mem_eraseIdx hf)
      · intro f hf
        exact hinv f (List.mem_of_mem_eraseIdx hf)

/-- Claim C4: in every reachable session state, an override with a fixed
positive count N still pending in the chain has a call count strictly below
N; and any invocation successfully matched by `Expectation` is matched to an
override whose call count, after the increment, is at most its quota N.
Since an override reaching its quota is removed from the chain (and its
patch reverted) before `Expectation` returns, an invocation arriving after
the N-th can only be matched to another chain entry or reach the restored
original function — never the exhausted override. -/
theorem fixed_count_never_exceeded (s : State) (hs : Reachable s) :
    countInv s ∧
    (∀ (entry : Nat) (s' : State) (e' : Expect),
      Expectation s entry = .ok (s', e') → 0 < e'.expCount →
        (e'.actCount : Int) ≤ e'.expCount) := by
  have hinv : countInv s := by
    induction hs with
    | init m => intro e he _; simp at he
    | stepOverride org mock nm count hre hok ih =>
      obtain ⟨en, hes, hact⟩ := override_ok_append hok
      intro e he hpos
      rw [hes] at he
      rcases List.mem_append.mp he with h1 | h1
      · exact ih e h1 hpos
      · have heq : e = en := by simpa using h1
        subst heq
        rw [hact]
        simpa using hpos
    | stepExpectation entry e hre hok ih => exact (countInv_expectation ih hok).1
    | stepReset org hre ih => exact countInv_Reset org ih
    | stepWereMet hre ih => intro e he _; simp [ExpectationsWereMet] at he
  exact ⟨hinv, fun entry s' e' h hpos => (countInv_expectation hinv h).2 hpos⟩

/-- Witness for claim C4 at the concrete reachable state `twoQuota`, built
by one `Override` step from a fresh session. -/
theorem fixed_count_never_exceeded_witness :
    countInv twoQuota ∧
    (∀ (entry : Nat) (s' : State) (e' : Expect),
      Expectation twoQuota entry = .ok (s', e') → 0 < e'.expCount →
        (e'.actCount : Int) ≤ e'.expCount) :=
  fixed_count_never_exceeded twoQuota
    (Reachable.stepOverride 100 300 "f" 2 (Reachable.init mem0) rfl)

end Testaroli
